import Mathlib

/-!
# Verification of the go-ratelimiter rate limiting store and middleware

A shallow embedding of the `ratelimiter` Go package: the redis-backed
`Store` implementation (`NewRedisStore`, `take`, `newBucket`, `update`,
`hset`, `reset`) and the HTTP admission middleware (`LimiterMiddleware`).

The backing redis instance is modelled as a functional state
(`RedisState`): a keyspace of hashes (field → string value), per-key
absolute expiry deadlines (an `Expire k d` issued at instant `now` is
recorded as the deadline `now + d`, and a key is readable only strictly
before its deadline, matching redis TTL semantics), and per-key sets
(for the tag index).  Time is a `Nat` of nanoseconds, passed explicitly
to every operation that the Go code performs "at" an instant.

Machine integers: all counters are Go `uint64`, modelled as `Nat`; the
one place the width is observable is the `uint64(...UnixNano())` cast
when a bucket's reset time is computed, modelled by an explicit
`% 2 ^ 64`.
-/

set_option autoImplicit false

namespace GoRatelimiter

/-! ## Decimal numeral codec

Models `strconv.FormatUint(n, 10)` and `strconv.ParseUint(s, 0, 64)`.
`ParseUint` with base 0 accepts plain decimal numerals (the only form
this store ever writes: `FormatUint` base 10 never emits a leading
zero, a sign, or a base prefix) and rejects the empty string and any
string containing a non-digit; values not representable in 64 bits are
an error.  Base prefixes and leading-zero (octal) numerals of base-0
parsing are not modelled: no value written by the store has that shape.
-/

/-- The character of a decimal digit, as in `strconv`: `'0' + d`. -/
def digitChar (d : Nat) : Char := Char.ofNat (48 + d)

/-- Decimal digits of `n`, most significant first, prepended to `acc`.
Structural fuel recursion; `fuel = n + 1` always suffices since the
quotient `n / 10` strictly decreases. -/
def toDecChars (fuel : Nat) (n : Nat) (acc : List Char) : List Char :=
  match fuel with
  | 0 => acc
  | f + 1 =>
    let d := digitChar (n % 10)
    if n / 10 = 0 then d :: acc else toDecChars f (n / 10) (d :: acc)

/-- `strconv.FormatUint(n, 10)`. -/
def formatUint (n : Nat) : String := String.mk (toDecChars (n + 1) n [])

/-- Numeric value of a decimal digit character, `none` for a non-digit. -/
def digitVal (c : Char) : Option Nat :=
  if 48 ≤ c.toNat ∧ c.toNat ≤ 57 then some (c.toNat - 48) else none

/-- Left-to-right accumulation of a decimal numeral. -/
def parseUintAux (acc : Nat) : List Char → Option Nat
  | [] => some acc
  | c :: cs =>
    match digitVal c with
    | some d => parseUintAux (acc * 10 + d) cs
    | none => none

/-- `strconv.ParseUint(s, 0, 64)` on the numerals this store produces:
`none` models a non-nil error (empty input, non-digit, or 64-bit
overflow). -/
def parseUint (s : String) : Option Nat :=
  if s.data = [] then none
  else
    match parseUintAux 0 s.data with
    | some n => if n < 2 ^ 64 then some n else none
    | none => none

theorem digitVal_digitChar : ∀ d : Nat, d < 10 → digitVal (digitChar d) = some d := by
  decide

theorem toDecChars_append (f : Nat) : ∀ (n : Nat) (cs : List Char),
    toDecChars f n cs = toDecChars f n [] ++ cs := by
  induction f with
  | zero => intro n cs; simp [toDecChars]
  | succ f ih =>
    intro n cs
    by_cases h : n / 10 = 0
    · simp [toDecChars, h]
    · simp only [toDecChars, h, if_false]
      rw [ih (n / 10) (digitChar (n % 10) :: cs), ih (n / 10) [digitChar (n % 10)]]
      simp

theorem parseUintAux_append (l₁ : List Char) : ∀ (a : Nat) (l₂ : List Char),
    parseUintAux a (l₁ ++ l₂) =
      match parseUintAux a l₁ with
      | some m => parseUintAux m l₂
      | none => none := by
  induction l₁ with
  | nil => intro a l₂; simp [parseUintAux]
  | cons c cs ih =>
    intro a l₂
    simp only [List.cons_append, parseUintAux]
    cases digitVal c with
    | none => simp
    | some d => simp [ih]

theorem parseUintAux_toDecChars (f : Nat) : ∀ n : Nat, n < f →
    parseUintAux 0 (toDecChars f n []) = some n := by
  induction f with
  | zero => intro n h; omega
  | succ f ih =>
    intro n hn
    by_cases h : n / 10 = 0
    · have h10 : n < 10 := by omega
      simp [toDecChars, h, parseUintAux, digitVal_digitChar (n % 10) (by omega)]
      omega
    · have hq : n / 10 < f := by omega
      simp only [toDecChars, h, if_false]
      rw [toDecChars_append, parseUintAux_append]
      rw [ih (n / 10) hq]
      simp [parseUintAux, digitVal_digitChar (n % 10) (by omega)]
      omega

theorem toDecChars_ne_nil (f : Nat) : ∀ (n : Nat) (cs : List Char),
    toDecChars (f + 1) n cs ≠ [] := by
  induction f with
  | zero =>
    intro n cs
    by_cases h : n / 10 = 0 <;> simp [toDecChars, h]
  | succ f ih =>
    intro n cs
    by_cases h : n / 10 = 0
    · simp [toDecChars, h]
    · simp only [toDecChars, h, if_false]
      exact ih (n / 10) (digitChar (n % 10) :: cs)

/-- Round trip: every value the store writes reads back exactly. -/
theorem parseUint_formatUint (n : Nat) (h : n < 2 ^ 64) :
    parseUint (formatUint n) = some n := by
  have hne : toDecChars (n + 1) n [] ≠ [] := toDecChars_ne_nil n n []
  have hdata : (formatUint n).data = toDecChars (n + 1) n [] := rfl
  unfold parseUint
  rw [hdata, if_neg hne, parseUintAux_toDecChars (n + 1) n (Nat.lt_succ_self n)]
  show (if n < 2 ^ 64 then some n else none) = some n
  rw [if_pos h]

/-- `parseUint` only returns 64-bit representable values. -/
theorem parseUint_lt (s : String) (n : Nat) (h : parseUint s = some n) : n < 2 ^ 64 := by
  unfold parseUint at h
  by_cases he : s.data = []
  · simp [he] at h
  · rw [if_neg he] at h
    cases hp : parseUintAux 0 s.data with
    | none => simp [hp] at h
    | some m =>
      rw [hp] at h
      have h' : (if m < 2 ^ 64 then some m else none) = some n := h
      by_cases hm : m < 2 ^ 64
      · rw [if_pos hm] at h'
        injection h' with h'
        subst h'
        exact hm
      · rw [if_neg hm] at h'
        exact Option.noConfusion h'

/-! ## Redis field and key constants (source file of the redis store) -/

def redisActualPointsFieldName : String := "actual_points"

def redisResetTimeFieldName : String := "reset_time"

def redisMaxPointsFieldName : String := "max_points"

def defaultRedisPrefix : String := "rate_limiter_redistore_"

def defaultRedisTag : String := "goratelimit"

def defaultRedisTagPrefix : String := "tags:"

/-! ## The backing redis instance, as a functional state -/

/-- Point update of a total map over strings. -/
def upd {α : Type} (f : String → α) (k : String) (v : α) : String → α :=
  fun k' => if k' = k then v else f k'

theorem upd_self {α : Type} (f : String → α) (k : String) (v : α) : upd f k v k = v := by
  simp [upd]

theorem upd_other {α : Type} (f : String → α) (k k' : String) (v : α) (h : k' ≠ k) :
    upd f k v k' = f k' := by
  simp [upd, h]

/-- The shared redis keyspace: hashes (field → string value), absolute
expiry deadlines, and sets.  A key with deadline `d` is readable only at
instants strictly before `d`; a key without a deadline never expires. -/
structure RedisState where
  hashes : String → Option (String → Option String)
  deadlines : String → Option Nat
  sets : String → List String

/-- A redis instance with no keys. -/
def RedisState.empty : RedisState :=
  { hashes := fun _ => none, deadlines := fun _ => none, sets := fun _ => [] }

/-- Whether `key` is unexpired at instant `now`. -/
def live (st : RedisState) (now : Nat) (key : String) : Bool :=
  match st.deadlines key with
  | none => true
  | some d => decide (now < d)

/-- One field of redis `HMGet key ... field ...`: `none` is the nil reply
(key missing, key expired, or field absent from the hash). -/
def hmget (st : RedisState) (now : Nat) (key field : String) : Option String :=
  match st.hashes key with
  | none => none
  | some h => if live st now key then h field else none

/-- Redis `SMEMBERS key`: the empty list for a missing or expired set. -/
def smembers (st : RedisState) (now : Nat) (key : String) : List String :=
  if live st now key then st.sets key else []

/-- Redis `HSET key pairs`: upsert the fields into the hash, creating the
hash when absent; the key's TTL is untouched. -/
def RedisState.hsetPairs (st : RedisState) (key : String) (pairs : List (String × String)) :
    RedisState :=
  { st with
    hashes := upd st.hashes key
      (some (pairs.foldl (fun h p => upd h p.1 (some p.2))
        ((st.hashes key).getD (fun _ => none)))) }

/-- Redis `SADD key member`: set-insert, preserving first-insertion order. -/
def RedisState.sadd (st : RedisState) (key member : String) : RedisState :=
  { st with
    sets := upd st.sets key
      (if member ∈ st.sets key then st.sets key else st.sets key ++ [member]) }

/-- Redis `EXPIRE key dur` issued at instant `now`: the key now dies at
the absolute deadline `now + dur`. -/
def RedisState.expire (st : RedisState) (now : Nat) (key : String) (dur : Nat) : RedisState :=
  { st with deadlines := upd st.deadlines key (some (now + dur)) }

/-- Redis `DEL key`: drop the key from every keyspace structure. -/
def RedisState.del (st : RedisState) (key : String) : RedisState :=
  { hashes := upd st.hashes key none
    deadlines := upd st.deadlines key none
    sets := upd st.sets key [] }

/-! ## The redis store -/

/-- `RedisConfig` (exported configuration struct). `Interval` is a
`time.Duration` in nanoseconds and `Points` a `uint64`. -/
structure RedisConfig where
  Tags : List String
  TagsPrefix : String
  Prefix : String
  Interval : Nat
  Points : Nat

/-- `redisStore` (the `Store` implementation).  The Go field `prefix` is
called `keyPrefix` here. -/
structure redisStore where
  tags : List String
  tagPrefix : String
  keyPrefix : String
  maxPoints : Nat
  interval : Nat

/-- A value read back from a redis hash field, as the Go code sees it
through `interface{}`: a string, or some other dynamic type (for which
the `.(string)` type assertion fails). -/
inductive RVal where
  | str (s : String)
  | other
deriving DecidableEq

/-- The errors `take` can surface.  `redisMismatchTypes` is the
`"redis mismatch types"` failed type assertion. -/
inductive TakeErr where
  | redisMismatchTypes
deriving DecidableEq

/-- The tuple `(limit, remaining, resetTime, ok, err)` returned by
`Take`/`take`; `err = none` is a nil error. -/
structure TakeRet where
  limit : Nat
  remaining : Nat
  resetTime : Nat
  ok : Bool
  err : Option TakeErr
deriving DecidableEq

/-- `HSet` receives its field/value pairs as a flat `[]string`. -/
def pairUp : List String → List (String × String)
  | f :: v :: rest => (f, v) :: pairUp rest
  | _ => []

/-- `redisStore.hset`: the transactional pipeline that, for every
configured tag, `SAdd`s the key into the tag set and refreshes the tag
set's expiry, then `HSet`s the bucket fields and sets the key's expiry. -/
def redisStore.hset (r : redisStore) (st : RedisState) (now : Nat) (key : String)
    (fields : List String) (expiration : Nat) : RedisState :=
  let st1 := r.tags.foldl (fun s tag => (s.sadd tag key).expire now tag expiration) st
  (st1.hsetPairs key (pairUp fields)).expire now key expiration

/-- `redisStore.newBucket`: create a fresh bucket at `key` with
`remaining = limit = maxPoints` and
`resetTime = uint64(now + interval)` (the `uint64(...UnixNano())`
cast is the explicit `% 2 ^ 64`), persisted with `interval` as expiry. -/
def redisStore.newBucket (r : redisStore) (st : RedisState) (now : Nat) (key : String) :
    TakeRet × RedisState :=
  let actual := r.maxPoints
  let resetTime := (now + r.interval) % 2 ^ 64
  (⟨r.maxPoints, r.maxPoints, resetTime, true, none⟩,
   r.hset st now key
     [redisMaxPointsFieldName, formatUint r.maxPoints,
      redisActualPointsFieldName, formatUint actual,
      redisResetTimeFieldName, formatUint resetTime] r.interval)

/-- `redisStore.update`: write back fields with a bare `HSet` (no
pipeline, no expiry, no tag bookkeeping). -/
def redisStore.update (r : redisStore) (st : RedisState) (key : String)
    (fields : List String) : RedisState :=
  st.hsetPairs key (pairUp fields)

/-- The body of `take` after the `HMGet` reply `(v0, v1, v2)` for the
fields `(max_points, actual_points, reset_time)` is in hand.

Note on the parse steps: the source computes `l, pErr :=
strconv.ParseUint(v, 0, 64)` but then tests the stale outer `err`
(necessarily nil at that point) instead of `pErr`, for all three
fields; so a parse failure is never returned and the field silently
becomes `ParseUint`'s zero value.  That unreachable error return is
embedded as `(parseUint _).getD 0` with no error. -/
def redisStore.takeCore (r : redisStore) (st : RedisState) (now : Nat) (pk : String)
    (v0 v1 v2 : Option RVal) : TakeRet × RedisState :=
  match v0 with
  | none => r.newBucket st now pk
  | some RVal.other => (⟨0, 0, 0, false, some TakeErr.redisMismatchTypes⟩, st)
  | some (RVal.str s0) =>
    match v1 with
    | some (RVal.str s1) =>
      match v2 with
      | some (RVal.str s2) =>
        let limit := (parseUint s0).getD 0
        let remaining := (parseUint s1).getD 0
        let resetTimeUint := (parseUint s2).getD 0
        if remaining > 0 then
          let rem : Nat := remaining - 1
          (⟨limit, rem, resetTimeUint, true, none⟩,
           r.update st pk [redisActualPointsFieldName, formatUint rem])
        else
          (⟨limit, remaining, resetTimeUint, false, none⟩, st)
      | _ => (⟨0, 0, 0, false, some TakeErr.redisMismatchTypes⟩, st)
    | _ => (⟨0, 0, 0, false, some TakeErr.redisMismatchTypes⟩, st)

/-- The `HMGet` round trip of `take`: the three bucket fields, read at
instant `now`.  Real redis replies are always strings, hence `.str`. -/
def redisStore.readBucket (r : redisStore) (st : RedisState) (now : Nat) (pk : String) :
    Option RVal × Option RVal × Option RVal :=
  ((hmget st now pk redisMaxPointsFieldName).map RVal.str,
   (hmget st now pk redisActualPointsFieldName).map RVal.str,
   (hmget st now pk redisResetTimeFieldName).map RVal.str)

/-- `redisStore.take`: prefix the key, `HMGet` the three fields, then
run the decision body.  A nil first field (missing key, expired key —
the same path the `redis.Nil` branch takes) creates a new bucket. -/
def redisStore.take (r : redisStore) (st : RedisState) (now : Nat) (key : String) :
    TakeRet × RedisState :=
  let pk := r.keyPrefix ++ key
  let vals := r.readBucket st now pk
  r.takeCore st now pk vals.1 vals.2.1 vals.2.2

/-- `redisStore.Take`: the exported wrapper; on a non-nil inner error it
returns zeroed values and the (wrapped) error. -/
def redisStore.Take (r : redisStore) (st : RedisState) (now : Nat) (key : String) :
    TakeRet × RedisState :=
  let res := r.take st now key
  match res.1.err with
  | some e => (⟨0, 0, 0, false, some e⟩, res.2)
  | none => res

/-- The errors `reset` returns: `tagsNotSet` when the store has no
tags, `pipelineExec` when the transaction's `EXEC` aborts. -/
inductive ResetErr where
  | tagsNotSet
  | pipelineExec
deriving DecidableEq

/-- `redisStore.reset`: with no tags, fail before touching the store;
otherwise `SMembers` the primary (first) tag and delete all member keys
plus all tag entries in one transactional pipeline.

When the primary tag's member set is empty (fresh store, or buckets and
tag set expired), `pipe.Del(ctx, keys...)` queues a redis `DEL` with
zero keys — an arity error — so `EXEC` aborts the whole transaction:
`reset` returns the non-nil pipeline-exec error and nothing is deleted,
the queued tag-entry `Del` included.  With a non-empty member set both
queued `Del`s are well formed (`r.tags` is non-empty in this branch)
and the batch commits. -/
def redisStore.reset (r : redisStore) (st : RedisState) (now : Nat) :
    Option ResetErr × RedisState :=
  match r.tags with
  | [] => (some ResetErr.tagsNotSet, st)
  | t0 :: _ =>
    let keys := smembers st now t0
    if keys = [] then (some ResetErr.pipelineExec, st)
    else
      let st1 := keys.foldl RedisState.del st
      let st2 := r.tags.foldl RedisState.del st1
      (none, st2)

/-- `redisStore.Reset`: the exported wrapper (error wrapping only). -/
def redisStore.Reset (r : redisStore) (st : RedisState) (now : Nat) :
    Option ResetErr × RedisState :=
  r.reset st now

/-- The Go loop body `tags[idx] = ...`: indexing a slice panics when the
index is not below the slice's *length* (its capacity is irrelevant). -/
def setIdx (xs : List String) (i : Nat) (v : String) : Option (List String) :=
  if i < xs.length then some (xs.set i v) else none

/-- The `for idx, tag := range cfg.Tags` loop of `NewRedisStore`,
assigning `tags[idx] = tagPrefix + tag`; `none` models the panic. -/
def prefixTagsLoop (tagPfx : String) : Nat → List String → List String → Option (List String)
  | _, acc, [] => some acc
  | idx, acc, tag :: rest =>
    match setIdx acc idx (tagPfx ++ tag) with
    | none => none
    | some acc' => prefixTagsLoop tagPfx (idx + 1) acc' rest

/-- `NewRedisStore`: `none` models a panic during construction.  The
local `tags` slice is built with `make([]string, 0, len(cfg.Tags))` —
length zero — so the assigning loop over a non-empty `cfg.Tags` indexes
out of bounds. -/
def NewRedisStore (cfg : RedisConfig) : Option redisStore :=
  let pfx := if cfg.Prefix = "" then defaultRedisPrefix else cfg.Prefix
  let tagPfx := if cfg.TagsPrefix = "" then defaultRedisTagPrefix else cfg.TagsPrefix
  let tags0 : List String := []
  if cfg.Tags = [] then
    some
      { tags := tags0 ++ [tagPfx ++ defaultRedisTag]
        tagPrefix := tagPfx
        keyPrefix := pfx
        maxPoints := cfg.Points
        interval := cfg.Interval }
  else
    match prefixTagsLoop tagPfx 0 tags0 cfg.Tags with
    | none => none
    | some tags =>
      some
        { tags := tags
          tagPrefix := tagPfx
          keyPrefix := pfx
          maxPoints := cfg.Points
          interval := cfg.Interval }

/-! ## The HTTP admission middleware

The HTTP layer is modelled observationally: a request of an opaque type
`Req`, and an outcome recording the explicitly written status code (if
any), the response headers set, whether the wrapped handler was
invoked, and whether `Store.Take` was called.  The `time.Unix(0,
int64(t)).UTC().Format(dateFormat)` rendering of the reset instant is
abstracted as a function `render : Nat → String` (date formatting is
outside the store's semantics; the claims only compare rendered
values). -/

def HeaderRateLimitLimit : String := "X-RateLimit-Limit"

def HeaderRateLimitRemaining : String := "X-RateLimit-Remaining"

def HeaderRateLimitReset : String := "X-RateLimit-Reset"

def HeaderRetryAfter : String := "Retry-After"

/-- Result of the `KeyFunc` for one request: a key, or a non-nil error. -/
inductive KeyRes where
  | ok (key : String)
  | err
deriving DecidableEq

/-- `w.Header().Set(k, v)`: replace the header if present, else append. -/
def setHeader (hs : List (String × String)) (k v : String) : List (String × String) :=
  if hs.any (fun p => p.1 == k) then hs.map (fun p => if p.1 == k then (k, v) else p)
  else hs ++ [(k, v)]

/-- What one pass through the middleware handler did. -/
structure MwOutcome where
  status : Option Nat
  headers : List (String × String)
  delegated : Bool
  storeCalled : Bool
deriving DecidableEq

/-- `LimiterMiddleware`'s inner handler for one request.  `takeFn` is
the store's `Take` restricted to its returned decision (the middleware
never looks at store state), `keyFunc` the configured `KeyFunc` or
`nil`, and `skipper` the value `skipperFn()` would produce for this
request (`none` when no skipper is configured). -/
def LimiterMiddleware (Req : Type) (takeFn : String → TakeRet)
    (keyFunc : Option (Req → KeyRes)) (skipper : Option Bool)
    (render : Nat → String) (req : Req) : MwOutcome :=
  match skipper with
  | some true => ⟨none, [], true, false⟩
  | _ =>
    match keyFunc with
    | none => ⟨some 500, [], false, false⟩
    | some kf =>
      match kf req with
      | KeyRes.err => ⟨some 500, [], false, false⟩
      | KeyRes.ok key =>
        let d := takeFn key
        match d.err with
        | some _ => ⟨some 500, [], false, true⟩
        | none =>
          let resetTime := render d.resetTime
          let hs :=
            setHeader
              (setHeader
                (setHeader [] HeaderRateLimitLimit (formatUint d.limit))
                HeaderRateLimitRemaining (formatUint d.remaining))
              HeaderRateLimitReset resetTime
          if d.ok then ⟨none, hs, true, true⟩
          else ⟨some 429, setHeader hs HeaderRetryAfter resetTime, false, true⟩

/-! ## Lemmas about the store operations -/

theorem tagsFold_hashes (key : String) (now e : Nat) :
    ∀ (l : List String) (st : RedisState),
      (l.foldl (fun s tag => (s.sadd tag key).expire now tag e) st).hashes = st.hashes := by
  intro l
  induction l with
  | nil => intro st; rfl
  | cons t ts ih =>
    intro st
    rw [List.foldl_cons, ih]
    rfl

theorem hset_hashes_key (r : redisStore) (st : RedisState) (now : Nat) (key : String)
    (fields : List String) (e : Nat) :
    (r.hset st now key fields e).hashes key =
      some ((pairUp fields).foldl (fun h p => upd h p.1 (some p.2))
        ((st.hashes key).getD (fun _ => none))) := by
  unfold redisStore.hset
  show (RedisState.hsetPairs _ key _).hashes key = _
  unfold RedisState.hsetPairs
  show upd _ key _ key = _
  rw [upd_self, tagsFold_hashes]

theorem hset_hashes_other (r : redisStore) (st : RedisState) (now : Nat) (key k : String)
    (fields : List String) (e : Nat) (h : k ≠ key) :
    (r.hset st now key fields e).hashes k = st.hashes k := by
  unfold redisStore.hset
  show (RedisState.hsetPairs _ key _).hashes k = _
  unfold RedisState.hsetPairs
  show upd _ key _ k = _
  rw [upd_other _ _ _ _ h, tagsFold_hashes]

theorem hset_deadlines_key (r : redisStore) (st : RedisState) (now : Nat) (key : String)
    (fields : List String) (e : Nat) :
    (r.hset st now key fields e).deadlines key = some (now + e) := by
  unfold redisStore.hset RedisState.expire
  exact upd_self _ _ _

theorem update_hashes_key (r : redisStore) (st : RedisState) (key : String)
    (fields : List String) :
    (r.update st key fields).hashes key =
      some ((pairUp fields).foldl (fun h p => upd h p.1 (some p.2))
        ((st.hashes key).getD (fun _ => none))) := by
  unfold redisStore.update RedisState.hsetPairs
  exact upd_self _ _ _

theorem update_hashes_other (r : redisStore) (st : RedisState) (key k : String)
    (fields : List String) (h : k ≠ key) :
    (r.update st key fields).hashes k = st.hashes k := by
  unfold redisStore.update RedisState.hsetPairs
  exact upd_other _ _ _ _ h

theorem update_deadlines (r : redisStore) (st : RedisState) (key : String)
    (fields : List String) :
    (r.update st key fields).deadlines = st.deadlines := rfl

theorem update_sets (r : redisStore) (st : RedisState) (key : String)
    (fields : List String) :
    (r.update st key fields).sets = st.sets := rfl

/-- A successful `hmget` read exposes the hash, its liveness, and the field. -/
theorem hmget_eq_some (st : RedisState) (now : Nat) (key field s : String)
    (h : hmget st now key field = some s) :
    ∃ hh, st.hashes key = some hh ∧ live st now key = true ∧ hh field = some s := by
  unfold hmget at h
  cases hk : st.hashes key with
  | none => rw [hk] at h; exact Option.noConfusion h
  | some hh =>
    rw [hk] at h
    have h' : (if live st now key = true then hh field else none) = some s := h
    by_cases hl : live st now key = true
    · rw [if_pos hl] at h'
      exact ⟨hh, rfl, hl, h'⟩
    · rw [if_neg hl] at h'
      exact Option.noConfusion h'

/-- When all three fields read back as strings, `take` runs the
existing-bucket body on them. -/
theorem take_eq_takeCore_of_read (r : redisStore) (st : RedisState) (now : Nat) (key : String)
    (s0 s1 s2 : String)
    (h0 : hmget st now (r.keyPrefix ++ key) redisMaxPointsFieldName = some s0)
    (h1 : hmget st now (r.keyPrefix ++ key) redisActualPointsFieldName = some s1)
    (h2 : hmget st now (r.keyPrefix ++ key) redisResetTimeFieldName = some s2) :
    r.take st now key =
      r.takeCore st now (r.keyPrefix ++ key)
        (some (RVal.str s0)) (some (RVal.str s1)) (some (RVal.str s2)) := by
  simp only [redisStore.take, redisStore.readBucket]
  rw [h0, h1, h2]
  rfl

/-- When the first field reads back nil, `take` runs `newBucket`. -/
theorem take_eq_newBucket_of_miss (r : redisStore) (st : RedisState) (now : Nat) (key : String)
    (h0 : hmget st now (r.keyPrefix ++ key) redisMaxPointsFieldName = none) :
    r.take st now key = r.newBucket st now (r.keyPrefix ++ key) := by
  simp only [redisStore.take, redisStore.readBucket]
  rw [h0]
  rfl

/-! ## C1: a missing bucket is created full and admitted -/

/-- **C1.** For every key whose bucket is absent from the backing store
(the first `HMGet` field is nil — the same `newBucket` path the
`redis.Nil` reply takes), `Take` creates a bucket whose
`remaining = limit = maxPoints` (the configured points) and whose
`resetTime = now + interval`, persists all three fields with the
configured interval as the key's expiry, and returns
`(limit, limit, resetTime, true, nil)`; the returned remaining is the
full `limit`, not `limit - 1`. -/
theorem take_fresh_key_creates_full_bucket (r : redisStore) (st : RedisState)
    (now : Nat) (key : String)
    (hmiss : hmget st now (r.keyPrefix ++ key) redisMaxPointsFieldName = none)
    (hintv : 0 < r.interval) (hof : now + r.interval < 2 ^ 64) :
    (r.Take st now key).1 = ⟨r.maxPoints, r.maxPoints, now + r.interval, true, none⟩ ∧
    hmget (r.Take st now key).2 now (r.keyPrefix ++ key) redisMaxPointsFieldName =
      some (formatUint r.maxPoints) ∧
    hmget (r.Take st now key).2 now (r.keyPrefix ++ key) redisActualPointsFieldName =
      some (formatUint r.maxPoints) ∧
    hmget (r.Take st now key).2 now (r.keyPrefix ++ key) redisResetTimeFieldName =
      some (formatUint (now + r.interval)) ∧
    (r.Take st now key).2.deadlines (r.keyPrefix ++ key) = some (now + r.interval) := by
  have hmod : (now + r.interval) % 2 ^ 64 = now + r.interval := Nat.mod_eq_of_lt hof
  have htake : r.take st now key = r.newBucket st now (r.keyPrefix ++ key) :=
    take_eq_newBucket_of_miss r st now key hmiss
  have hTake : r.Take st now key = r.newBucket st now (r.keyPrefix ++ key) := by
    unfold redisStore.Take
    rw [htake]
    rfl
  rw [hTake]
  unfold redisStore.newBucket
  simp only
  rw [hmod]
  set pk := r.keyPrefix ++ key with hpk
  set pairs := [redisMaxPointsFieldName, formatUint r.maxPoints,
      redisActualPointsFieldName, formatUint r.maxPoints,
      redisResetTimeFieldName, formatUint (now + r.interval)] with hpairs
  have hdl : (r.hset st now pk pairs r.interval).deadlines pk = some (now + r.interval) :=
    hset_deadlines_key r st now pk pairs r.interval
  have hlive : live (r.hset st now pk pairs r.interval) now pk = true := by
    unfold live
    rw [hdl]
    exact decide_eq_true (by omega)
  have hhash := hset_hashes_key r st now pk pairs r.interval
  refine ⟨rfl, ?_, ?_, ?_, hdl⟩ <;>
    · unfold hmget
      rw [hhash]
      dsimp only
      rw [if_pos hlive, hpairs]
      simp only [pairUp, List.foldl_cons, List.foldl_nil]
      simp [upd, redisMaxPointsFieldName, redisActualPointsFieldName, redisResetTimeFieldName]

/-- Witness for C1 at a concrete store, state, and instant. -/
theorem take_fresh_key_creates_full_bucket_witness :
    (redisStore.Take ⟨["tags:goratelimit"], "tags:", "p_", 5, 100⟩ RedisState.empty 7 "k").1 =
      ⟨5, 5, 107, true, none⟩ ∧
    (redisStore.Take ⟨["tags:goratelimit"], "tags:", "p_", 5, 100⟩
        RedisState.empty 7 "k").2.deadlines "p_k" = some 107 := by
  have h := take_fresh_key_creates_full_bucket ⟨["tags:goratelimit"], "tags:", "p_", 5, 100⟩
    RedisState.empty 7 "k" rfl (by decide) (by decide)
  exact ⟨h.1, h.2.2.2.2⟩

/-! ## C3: a bucket with permits left is decremented by exactly one -/

/-- **C3.** For every existing live bucket whose three fields parse to
`(l, rem, t)` with `rem > 0`, `Take` decrements remaining by exactly 1
and returns `(l, rem - 1, t, true, nil)`; the write-back touches only
the `actual_points` field of this one key — every other key's hash, all
expiry deadlines (TTLs), and all tag sets are untouched. -/
theorem take_hit_decrements_by_one (r : redisStore) (st : RedisState) (now : Nat)
    (key : String) (hh : String → Option String) (s0 s1 s2 : String) (l rem t : Nat)
    (hhash : st.hashes (r.keyPrefix ++ key) = some hh)
    (hlive : live st now (r.keyPrefix ++ key) = true)
    (h0 : hh redisMaxPointsFieldName = some s0) (hp0 : parseUint s0 = some l)
    (h1 : hh redisActualPointsFieldName = some s1) (hp1 : parseUint s1 = some rem)
    (h2 : hh redisResetTimeFieldName = some s2) (hp2 : parseUint s2 = some t)
    (hpos : 0 < rem) :
    (r.Take st now key).1 = ⟨l, rem - 1, t, true, none⟩ ∧
    (r.Take st now key).2.hashes (r.keyPrefix ++ key) =
      some (upd hh redisActualPointsFieldName (some (formatUint (rem - 1)))) ∧
    (∀ k, k ≠ r.keyPrefix ++ key → (r.Take st now key).2.hashes k = st.hashes k) ∧
    (r.Take st now key).2.deadlines = st.deadlines ∧
    (r.Take st now key).2.sets = st.sets := by
  have hg0 : hmget st now (r.keyPrefix ++ key) redisMaxPointsFieldName = some s0 := by
    unfold hmget; rw [hhash]; dsimp only; rw [if_pos hlive]; exact h0
  have hg1 : hmget st now (r.keyPrefix ++ key) redisActualPointsFieldName = some s1 := by
    unfold hmget; rw [hhash]; dsimp only; rw [if_pos hlive]; exact h1
  have hg2 : hmget st now (r.keyPrefix ++ key) redisResetTimeFieldName = some s2 := by
    unfold hmget; rw [hhash]; dsimp only; rw [if_pos hlive]; exact h2
  have hcore := take_eq_takeCore_of_read r st now key s0 s1 s2 hg0 hg1 hg2
  have htake : r.take st now key =
      (⟨l, rem - 1, t, true, none⟩,
       r.update st (r.keyPrefix ++ key)
         [redisActualPointsFieldName, formatUint (rem - 1)]) := by
    rw [hcore]
    unfold redisStore.takeCore
    simp only [hp0, hp1, hp2, Option.getD_some]
    rw [if_pos hpos]
  have hTake : r.Take st now key =
      (⟨l, rem - 1, t, true, none⟩,
       r.update st (r.keyPrefix ++ key)
         [redisActualPointsFieldName, formatUint (rem - 1)]) := by
    unfold redisStore.Take
    rw [htake]
  rw [hTake]
  refine ⟨rfl, ?_, ?_, rfl, rfl⟩
  · rw [update_hashes_key]
    rw [hhash]
    simp only [pairUp, List.foldl_cons, List.foldl_nil, Option.getD_some]
  · intro k hk
    exact update_hashes_other r st (r.keyPrefix ++ key) k _ hk

/-- Witness for C3: a bucket at `5` permits yields `4` and only the
`actual_points` field changes. -/
theorem take_hit_decrements_by_one_witness :
    (redisStore.Take ⟨["tags:goratelimit"], "tags:", "p_", 10, 100⟩
      ⟨upd (fun _ => none) "p_k"
          (some (upd (upd (upd (fun _ => none)
            redisMaxPointsFieldName (some "10"))
            redisActualPointsFieldName (some "5"))
            redisResetTimeFieldName (some "777"))),
        fun _ => none, fun _ => []⟩ 3 "k").1 = ⟨10, 4, 777, true, none⟩ := by
  have h := take_hit_decrements_by_one ⟨["tags:goratelimit"], "tags:", "p_", 10, 100⟩
    ⟨upd (fun _ => none) "p_k"
        (some (upd (upd (upd (fun _ => none)
          redisMaxPointsFieldName (some "10"))
          redisActualPointsFieldName (some "5"))
          redisResetTimeFieldName (some "777"))),
      fun _ => none, fun _ => []⟩ 3 "k"
    (upd (upd (upd (fun _ => none)
      redisMaxPointsFieldName (some "10"))
      redisActualPointsFieldName (some "5"))
      redisResetTimeFieldName (some "777"))
    "10" "5" "777" 10 5 777
    (by simp [upd]) rfl (by decide) (by decide) (by decide) (by decide)
    (by decide) (by decide) (by decide)
  exact h.1

/-! ## C4: an exhausted bucket rejects and writes nothing -/

/-- **C4.** For every existing live bucket whose fields parse to
`(l, 0, t)`, `Take` returns `(l, 0, t, false, nil)` and leaves the store
state exactly unchanged — no write of any kind; consequently a repeated
`Take` in the same window returns the same rejection again, remaining
stays `0` and never goes negative. -/
theorem take_exhausted_rejects_no_write (r : redisStore) (st : RedisState) (now : Nat)
    (key : String) (hh : String → Option String) (s0 s1 s2 : String) (l t : Nat)
    (hhash : st.hashes (r.keyPrefix ++ key) = some hh)
    (hlive : live st now (r.keyPrefix ++ key) = true)
    (h0 : hh redisMaxPointsFieldName = some s0) (hp0 : parseUint s0 = some l)
    (h1 : hh redisActualPointsFieldName = some s1) (hp1 : parseUint s1 = some 0)
    (h2 : hh redisResetTimeFieldName = some s2) (hp2 : parseUint s2 = some t) :
    r.Take st now key = (⟨l, 0, t, false, none⟩, st) ∧
    r.Take ((r.Take st now key).2) now key = (⟨l, 0, t, false, none⟩, st) := by
  have hg0 : hmget st now (r.keyPrefix ++ key) redisMaxPointsFieldName = some s0 := by
    unfold hmget; rw [hhash]; dsimp only; rw [if_pos hlive]; exact h0
  have hg1 : hmget st now (r.keyPrefix ++ key) redisActualPointsFieldName = some s1 := by
    unfold hmget; rw [hhash]; dsimp only; rw [if_pos hlive]; exact h1
  have hg2 : hmget st now (r.keyPrefix ++ key) redisResetTimeFieldName = some s2 := by
    unfold hmget; rw [hhash]; dsimp only; rw [if_pos hlive]; exact h2
  have hcore := take_eq_takeCore_of_read r st now key s0 s1 s2 hg0 hg1 hg2
  have htake : r.take st now key = (⟨l, 0, t, false, none⟩, st) := by
    rw [hcore]
    unfold redisStore.takeCore
    simp only [hp0, hp1, hp2, Option.getD_some]
    rw [if_neg (by omega)]
  have hTake : r.Take st now key = (⟨l, 0, t, false, none⟩, st) := by
    unfold redisStore.Take
    rw [htake]
  refine ⟨hTake, ?_⟩
  rw [hTake]
  exact hTake

/-- Witness for C4: an exhausted bucket is rejected twice with no state
change. -/
theorem take_exhausted_rejects_no_write_witness :
    (redisStore.Take ⟨["tags:goratelimit"], "tags:", "p_", 10, 100⟩
      ⟨upd (fun _ => none) "p_k"
          (some (upd (upd (upd (fun _ => none)
            redisMaxPointsFieldName (some "10"))
            redisActualPointsFieldName (some "0"))
            redisResetTimeFieldName (some "777"))),
        fun _ => none, fun _ => []⟩ 3 "k").1 = ⟨10, 0, 777, false, none⟩ := by
  have h := take_exhausted_rejects_no_write ⟨["tags:goratelimit"], "tags:", "p_", 10, 100⟩
    ⟨upd (fun _ => none) "p_k"
        (some (upd (upd (upd (fun _ => none)
          redisMaxPointsFieldName (some "10"))
          redisActualPointsFieldName (some "0"))
          redisResetTimeFieldName (some "777"))),
      fun _ => none, fun _ => []⟩ 3 "k"
    (upd (upd (upd (fun _ => none)
      redisMaxPointsFieldName (some "10"))
      redisActualPointsFieldName (some "0"))
      redisResetTimeFieldName (some "777"))
    "10" "0" "777" 10 777
    (by simp [upd]) rfl (by decide) (by decide) (by decide) (by decide)
    (by decide) (by decide)
  rw [h.1]

/-! ## C2: the parse-failure checks test the wrong error variable

`take` computes `l, pErr := strconv.ParseUint(v, 0, 64)` and then tests
`if err != nil` — the stale outer error, necessarily nil after a
successful `HMGet` — instead of `pErr`, in all three field blocks.  A
bucket whose `max_points` holds the unparsable `"abc"` therefore makes
`Take` return a *nil* error with `limit = 0` (ParseUint's zero value on
failure) and consume a permit, instead of surfacing a corrupt-bucket
error. -/

/-- **C2 (failing input).** Evaluating `Take` on a live bucket
`{max_points: "abc", actual_points: "5", reset_time: "777"}`: the limit
field fails `ParseUint`, yet the call returns
`(0, 4, 777, true, nil)` — a nil error and a silently zeroed limit —
contradicting the claim that any unparsable field yields a non-nil
error. -/
theorem take_unparsable_field_returns_nil_error :
    (redisStore.Take ⟨["tags:goratelimit"], "tags:", "p_", 10, 100⟩
      ⟨upd (fun _ => none) "p_k"
          (some (upd (upd (upd (fun _ => none)
            redisMaxPointsFieldName (some "abc"))
            redisActualPointsFieldName (some "5"))
            redisResetTimeFieldName (some "777"))),
        fun _ => none, fun _ => []⟩ 3 "k").1 = ⟨0, 4, 777, true, none⟩ ∧
    parseUint "abc" = none := by
  constructor
  · rfl
  · rfl

/-! ## C5: construction panics on any configured tag list -/

/-- **C5.** `NewRedisStore` completes only when `cfg.Tags` is empty, and
then its tag list is exactly the one synthesized default tag
(tag prefix ++ `"goratelimit"`); for every non-empty `cfg.Tags` the
prefixing loop assigns `tags[idx]` on the length-0 slice
`make([]string, 0, len(cfg.Tags))`, an out-of-bounds index, so
construction never completes (`none` models the panic). -/
theorem newRedisStore_panics_on_configured_tags (cfg : RedisConfig) :
    (cfg.Tags = [] →
      NewRedisStore cfg =
        some
          { tags := [(if cfg.TagsPrefix = "" then defaultRedisTagPrefix else cfg.TagsPrefix) ++
              defaultRedisTag]
            tagPrefix := if cfg.TagsPrefix = "" then defaultRedisTagPrefix else cfg.TagsPrefix
            keyPrefix := if cfg.Prefix = "" then defaultRedisPrefix else cfg.Prefix
            maxPoints := cfg.Points
            interval := cfg.Interval }) ∧
    (cfg.Tags ≠ [] → NewRedisStore cfg = none) := by
  constructor
  · intro h
    unfold NewRedisStore
    rw [if_pos h]
    rfl
  · intro h
    unfold NewRedisStore
    rw [if_neg h]
    cases htags : cfg.Tags with
    | nil => exact absurd htags h
    | cons t rest =>
      have : prefixTagsLoop
          (if cfg.TagsPrefix = "" then defaultRedisTagPrefix else cfg.TagsPrefix)
          0 [] (t :: rest) = none := by
        unfold prefixTagsLoop setIdx
        simp
      rw [this]

/-- Witness for C5: no tags configured builds the default tag list;
one configured tag panics. -/
theorem newRedisStore_panics_on_configured_tags_witness :
    NewRedisStore ⟨[], "", "", 1000, 10⟩ =
      some ⟨["tags:goratelimit"], "tags:", "rate_limiter_redistore_", 10, 1000⟩ ∧
    NewRedisStore ⟨["api"], "", "", 1000, 10⟩ = none := by
  exact ⟨(newRedisStore_panics_on_configured_tags ⟨[], "", "", 1000, 10⟩).1 rfl,
    (newRedisStore_panics_on_configured_tags ⟨["api"], "", "", 1000, 10⟩).2 (by decide)⟩

/-! ## C6: Reset fails without tags, else deletes members and tags -/

theorem foldl_del_get (l : List String) : ∀ (st : RedisState) (k : String),
    ((l.foldl RedisState.del st).hashes k = if k ∈ l then none else st.hashes k) ∧
    ((l.foldl RedisState.del st).deadlines k = if k ∈ l then none else st.deadlines k) ∧
    ((l.foldl RedisState.del st).sets k = if k ∈ l then [] else st.sets k) := by
  induction l with
  | nil => intro st k; simp
  | cons a ts ih =>
    intro st k
    rw [List.foldl_cons]
    obtain ⟨ihh, ihd, ihs⟩ := ih (st.del a) k
    by_cases hts : k ∈ ts
    · refine ⟨?_, ?_, ?_⟩ <;> simp [ihh, ihd, ihs, hts]
    · by_cases ha : k = a
      · subst ha
        refine ⟨?_, ?_, ?_⟩
        · rw [ihh, if_neg hts]
          simp [RedisState.del, upd]
        · rw [ihd, if_neg hts]
          simp [RedisState.del, upd]
        · rw [ihs, if_neg hts]
          simp [RedisState.del, upd]
      · refine ⟨?_, ?_, ?_⟩
        · rw [ihh, if_neg hts, if_neg (by simp [List.mem_cons, ha, hts])]
          simp [RedisState.del, upd, ha]
        · rw [ihd, if_neg hts, if_neg (by simp [List.mem_cons, ha, hts])]
          simp [RedisState.del, upd, ha]
        · rw [ihs, if_neg hts, if_neg (by simp [List.mem_cons, ha, hts])]
          simp [RedisState.del, upd, ha]

/-- **C6 (counterexample).** One tag is configured, but the backing
store is empty, so the primary tag's member set is empty: `Reset` does
not perform the claimed successful batch deletion — the zero-key `DEL`
aborts the transaction and `Reset` returns a non-nil error, deleting
nothing. -/
theorem reset_empty_member_set_errors :
    redisStore.Reset ⟨["tags:goratelimit"], "tags:", "p_", 5, 100⟩ RedisState.empty 0 =
      (some ResetErr.pipelineExec, RedisState.empty) := rfl

/-- **C6 (amended).** `Reset` with zero configured tags returns an
explicit error and leaves the store untouched.  With at least one tag
and a *non-empty* primary-tag member set it returns nil and, in one
batch, deletes exactly the member keys of the primary (first) tag
together with every tag entry — every other key is untouched.  With at
least one tag but an empty primary-tag member set, the queued zero-key
`DEL` aborts the batch: `Reset` returns a non-nil error and performs no
mutation. -/
theorem reset_deletes_members_and_tags (r : redisStore) (st : RedisState) (now : Nat) :
    (r.tags = [] → r.Reset st now = (some ResetErr.tagsNotSet, st)) ∧
    (∀ t0 rest, r.tags = t0 :: rest → smembers st now t0 = [] →
      r.Reset st now = (some ResetErr.pipelineExec, st)) ∧
    (∀ t0 rest, r.tags = t0 :: rest → smembers st now t0 ≠ [] →
      (r.Reset st now).1 = none ∧
      (∀ k, k ∈ smembers st now t0 ∨ k ∈ r.tags →
        (r.Reset st now).2.hashes k = none ∧
        (r.Reset st now).2.deadlines k = none ∧
        (r.Reset st now).2.sets k = []) ∧
      (∀ k, k ∉ smembers st now t0 → k ∉ r.tags →
        (r.Reset st now).2.hashes k = st.hashes k ∧
        (r.Reset st now).2.deadlines k = st.deadlines k ∧
        (r.Reset st now).2.sets k = st.sets k)) := by
  refine ⟨?_, ?_, ?_⟩
  · intro h
    unfold redisStore.Reset redisStore.reset
    rw [h]
  · intro t0 rest htags hkeys
    unfold redisStore.Reset redisStore.reset
    rw [htags]
    dsimp only
    rw [if_pos hkeys]
  · intro t0 rest htags hkeys
    have hres : r.Reset st now =
        (none, r.tags.foldl RedisState.del
          ((smembers st now t0).foldl RedisState.del st)) := by
      unfold redisStore.Reset redisStore.reset
      rw [htags]
      dsimp only
      rw [if_neg hkeys]
    rw [hres]
    refine ⟨rfl, ?_, ?_⟩
    · intro k hk
      obtain ⟨hth, htd, hts⟩ :=
        foldl_del_get r.tags ((smembers st now t0).foldl RedisState.del st) k
      obtain ⟨hmh, hmd, hms⟩ := foldl_del_get (smembers st now t0) st k
      cases hk with
      | inl hmem =>
        by_cases htag : k ∈ r.tags
        · exact ⟨by simp [hth, htag], by simp [htd, htag], by simp [hts, htag]⟩
        · exact ⟨by simp [hth, htag, hmh, hmem], by simp [htd, htag, hmd, hmem],
            by simp [hts, htag, hms, hmem]⟩
      | inr htag =>
        exact ⟨by simp [hth, htag], by simp [htd, htag], by simp [hts, htag]⟩
    · intro k hmem htag
      obtain ⟨hth, htd, hts⟩ :=
        foldl_del_get r.tags ((smembers st now t0).foldl RedisState.del st) k
      obtain ⟨hmh, hmd, hms⟩ := foldl_del_get (smembers st now t0) st k
      exact ⟨by simp [hth, htag, hmh, hmem], by simp [htd, htag, hmd, hmem],
        by simp [hts, htag, hms, hmem]⟩

/-- Witness for C6: against a concrete populated state, a no-tags store
errors and a one-tag store deletes the tracked key and the tag set. -/
theorem reset_deletes_members_and_tags_witness :
    redisStore.Reset ⟨[], "tags:", "p_", 5, 100⟩
      ⟨fun _ => none, fun _ => none, fun _ => []⟩ 0 =
      (some ResetErr.tagsNotSet, ⟨fun _ => none, fun _ => none, fun _ => []⟩) ∧
    ((redisStore.Reset ⟨["tags:goratelimit"], "tags:", "p_", 5, 100⟩
      ⟨upd (fun _ => none) "p_k" (some (fun _ => some "1")),
        fun _ => none,
        upd (fun _ => []) "tags:goratelimit" ["p_k"]⟩ 0).2.hashes "p_k" = none ∧
     (redisStore.Reset ⟨["tags:goratelimit"], "tags:", "p_", 5, 100⟩
      ⟨upd (fun _ => none) "p_k" (some (fun _ => some "1")),
        fun _ => none,
        upd (fun _ => []) "tags:goratelimit" ["p_k"]⟩ 0).2.sets "tags:goratelimit" = []) := by
  refine ⟨(reset_deletes_members_and_tags ⟨[], "tags:", "p_", 5, 100⟩
      ⟨fun _ => none, fun _ => none, fun _ => []⟩ 0).1 rfl, ?_, ?_⟩
  · exact (((reset_deletes_members_and_tags ⟨["tags:goratelimit"], "tags:", "p_", 5, 100⟩
      ⟨upd (fun _ => none) "p_k" (some (fun _ => some "1")),
        fun _ => none,
        upd (fun _ => []) "tags:goratelimit" ["p_k"]⟩ 0).2.2 "tags:goratelimit"
        [] rfl (by decide)).2.1 "p_k" (Or.inl (by simp [smembers, live, upd]))).1
  · exact (((reset_deletes_members_and_tags ⟨["tags:goratelimit"], "tags:", "p_", 5, 100⟩
      ⟨upd (fun _ => none) "p_k" (some (fun _ => some "1")),
        fun _ => none,
        upd (fun _ => []) "tags:goratelimit" ["p_k"]⟩ 0).2.2 "tags:goratelimit"
        [] rfl (by decide)).2.1 "tags:goratelimit" (Or.inr (by simp))).2.2

/-! ## C8: a rejected decision renders 429 with all four headers -/

/-- **C8.** Whenever the store's `Take` returns
`(limit, remaining, t, false, nil)` (rejected, no error) and limiting is
not being skipped, the middleware sets `X-RateLimit-Limit`,
`X-RateLimit-Remaining` and `X-RateLimit-Reset`, sets `Retry-After` to
the same rendered reset value as `X-RateLimit-Reset`, writes status 429,
and does not invoke the wrapped handler. -/
theorem middleware_rejection_renders_429 (Req : Type) (takeFn : String → TakeRet)
    (kf : Req → KeyRes) (skipper : Option Bool) (render : Nat → String) (req : Req)
    (key : String) (l rem t : Nat)
    (hskip : skipper ≠ some true) (hkey : kf req = KeyRes.ok key)
    (htake : takeFn key = ⟨l, rem, t, false, none⟩) :
    LimiterMiddleware Req takeFn (some kf) skipper render req =
      ⟨some 429,
       [(HeaderRateLimitLimit, formatUint l),
        (HeaderRateLimitRemaining, formatUint rem),
        (HeaderRateLimitReset, render t),
        (HeaderRetryAfter, render t)], false, true⟩ := by
  unfold LimiterMiddleware
  have hsk : (match skipper with
      | some true => (⟨none, [], true, false⟩ : MwOutcome)
      | _ =>
        match some kf with
        | none => ⟨some 500, [], false, false⟩
        | some kf =>
          match kf req with
          | KeyRes.err => ⟨some 500, [], false, false⟩
          | KeyRes.ok key =>
            let d := takeFn key
            match d.err with
            | some _ => ⟨some 500, [], false, true⟩
            | none =>
              let resetTime := render d.resetTime
              let hs :=
                setHeader
                  (setHeader
                    (setHeader [] HeaderRateLimitLimit (formatUint d.limit))
                    HeaderRateLimitRemaining (formatUint d.remaining))
                  HeaderRateLimitReset resetTime
              if d.ok then ⟨none, hs, true, true⟩
              else ⟨some 429, setHeader hs HeaderRetryAfter resetTime, false, true⟩) =
      (match kf req with
        | KeyRes.err => (⟨some 500, [], false, false⟩ : MwOutcome)
        | KeyRes.ok key =>
          let d := takeFn key
          match d.err with
          | some _ => ⟨some 500, [], false, true⟩
          | none =>
            let resetTime := render d.resetTime
            let hs :=
              setHeader
                (setHeader
                  (setHeader [] HeaderRateLimitLimit (formatUint d.limit))
                  HeaderRateLimitRemaining (formatUint d.remaining))
                HeaderRateLimitReset resetTime
            if d.ok then ⟨none, hs, true, true⟩
            else ⟨some 429, setHeader hs HeaderRetryAfter resetTime, false, true⟩) := by
    match skipper with
    | none => rfl
    | some false => rfl
    | some true => exact absurd rfl hskip
  rw [hsk, hkey]
  simp only [htake]
  rfl

/-- Witness for C8: a concrete rejected decision renders 429 with the
four headers, `Retry-After` equal to the rendered reset. -/
theorem middleware_rejection_renders_429_witness :
    LimiterMiddleware Unit (fun _ => ⟨10, 0, 777, false, none⟩)
      (some (fun _ => KeyRes.ok "k")) none formatUint () =
      ⟨some 429,
       [(HeaderRateLimitLimit, formatUint 10),
        (HeaderRateLimitRemaining, formatUint 0),
        (HeaderRateLimitReset, formatUint 777),
        (HeaderRetryAfter, formatUint 777)], false, true⟩ :=
  middleware_rejection_renders_429 Unit (fun _ => ⟨10, 0, 777, false, none⟩)
    (fun _ => KeyRes.ok "k") none formatUint () "k" 10 0 777
    (by decide) rfl rfl

/-! ## C9: internal failures yield 500, no headers, no delegation -/

/-- **C9.** When limiting is not being skipped: a nil key function, a
key function error, and a store error each make the middleware respond
500 with no rate-limit headers and no delegation to the wrapped
handler; in the first two cases no store call is made at all (the store
is called only in the third). -/
theorem middleware_failures_render_500 (Req : Type) (takeFn : String → TakeRet)
    (keyFunc : Option (Req → KeyRes)) (skipper : Option Bool)
    (render : Nat → String) (req : Req)
    (hskip : skipper ≠ some true) :
    (keyFunc = none →
      LimiterMiddleware Req takeFn keyFunc skipper render req =
        ⟨some 500, [], false, false⟩) ∧
    (∀ kf, keyFunc = some kf → kf req = KeyRes.err →
      LimiterMiddleware Req takeFn keyFunc skipper render req =
        ⟨some 500, [], false, false⟩) ∧
    (∀ kf key e, keyFunc = some kf → kf req = KeyRes.ok key →
      (takeFn key).err = some e →
      LimiterMiddleware Req takeFn keyFunc skipper render req =
        ⟨some 500, [], false, true⟩) := by
  have hred : ∀ out : MwOutcome,
      (match keyFunc with
        | none => (⟨some 500, [], false, false⟩ : MwOutcome)
        | some kf =>
          match kf req with
          | KeyRes.err => ⟨some 500, [], false, false⟩
          | KeyRes.ok key =>
            let d := takeFn key
            match d.err with
            | some _ => ⟨some 500, [], false, true⟩
            | none =>
              let resetTime := render d.resetTime
              let hs :=
                setHeader
                  (setHeader
                    (setHeader [] HeaderRateLimitLimit (formatUint d.limit))
                    HeaderRateLimitRemaining (formatUint d.remaining))
                  HeaderRateLimitReset resetTime
              if d.ok then ⟨none, hs, true, true⟩
              else ⟨some 429, setHeader hs HeaderRetryAfter resetTime, false, true⟩) = out →
      LimiterMiddleware Req takeFn keyFunc skipper render req = out := by
    intro out h
    unfold LimiterMiddleware
    match skipper with
    | none => exact h
    | some false => exact h
    | some true => exact absurd rfl hskip
  refine ⟨?_, ?_, ?_⟩
  · intro h
    exact hred _ (by rw [h])
  · intro kf hkf herr
    refine hred _ ?_
    rw [hkf]
    dsimp only
    rw [herr]
  · intro kf key e hkf hok htake
    refine hred _ ?_
    rw [hkf]
    dsimp only
    rw [hok]
    dsimp only
    rw [htake]

/-- Witness for C9: each of the three failure modes at concrete inputs. -/
theorem middleware_failures_render_500_witness :
    LimiterMiddleware Unit (fun _ => ⟨10, 3, 777, true, none⟩)
      none none formatUint () = ⟨some 500, [], false, false⟩ ∧
    LimiterMiddleware Unit (fun _ => ⟨10, 3, 777, true, none⟩)
      (some (fun _ => KeyRes.err)) none formatUint () = ⟨some 500, [], false, false⟩ ∧
    LimiterMiddleware Unit (fun _ => ⟨0, 0, 0, false, some TakeErr.redisMismatchTypes⟩)
      (some (fun _ => KeyRes.ok "k")) none formatUint () = ⟨some 500, [], false, true⟩ := by
  refine ⟨?_, ?_, ?_⟩
  · exact (middleware_failures_render_500 Unit (fun _ => ⟨10, 3, 777, true, none⟩)
      none none formatUint () (by decide)).1 rfl
  · exact (middleware_failures_render_500 Unit (fun _ => ⟨10, 3, 777, true, none⟩)
      (some (fun _ => KeyRes.err)) none formatUint () (by decide)).2.1 _ rfl rfl
  · exact (middleware_failures_render_500 Unit
      (fun _ => ⟨0, 0, 0, false, some TakeErr.redisMismatchTypes⟩)
      (some (fun _ => KeyRes.ok "k")) none formatUint () (by decide)).2.2 _ "k"
      TakeErr.redisMismatchTypes rfl rfl rfl

/-! ## C10: the read-then-write decrement races

`take` is two separate store round trips — an `HMGet` read
(`readBucket`) followed, on admission, by an `HSet` write — with no
transaction, lock, or check-and-set spanning them.  Interleaving two
calls for the same key so that both reads happen before either write is
a legal schedule of the shared store; on it, both calls observe
`remaining = 1` and both are admitted. -/

/-- The remaining-permits field of a key's bucket as stored, read at
instant `now`. -/
def storedRemaining (st : RedisState) (now : Nat) (k : String) : Option Nat :=
  (hmget st now k redisActualPointsFieldName).bind parseUint

/-- **C10 (race demonstration).** A bucket holds `remaining = 1`
(`R = 1`); two concurrent `Take` calls (`N = 2`) are interleaved as
read₁, read₂, write₁, write₂ — each call being exactly the `HMGet` then
decision-plus-`HSet` the code performs.  Both calls return
`admitted = true` with a nil error: 2 calls are admitted where the
claim requires exactly `R = 1`. -/
theorem concurrent_takes_overadmit :
    let r : redisStore := ⟨["tags:goratelimit"], "tags:", "p_", 5, 100⟩
    let st : RedisState :=
      ⟨upd (fun _ => none) "p_k"
          (some (upd (upd (upd (fun _ => none)
            redisMaxPointsFieldName (some "5"))
            redisActualPointsFieldName (some "1"))
            redisResetTimeFieldName (some "50"))),
        upd (fun _ => none) "p_k" (some 50),
        upd (fun _ => []) "tags:goratelimit" ["p_k"]⟩
    let vals1 := r.readBucket st 10 "p_k"
    let vals2 := r.readBucket st 10 "p_k"
    let step1 := r.takeCore st 10 "p_k" vals1.1 vals1.2.1 vals1.2.2
    let step2 := r.takeCore step1.2 10 "p_k" vals2.1 vals2.2.1 vals2.2.2
    storedRemaining st 10 "p_k" = some 1 ∧
    step1.1.ok = true ∧ step1.1.err = none ∧
    step2.1.ok = true ∧ step2.1.err = none := by
  refine ⟨rfl, rfl, rfl, rfl, rfl⟩

/-! ## C7: bucket invariants across Take calls -/

/-- A stored bucket hash is well formed: its three fields are present,
parse as 64-bit numerals, and satisfy `remaining ≤ limit`. -/
def bucketWF (hh : String → Option String) : Prop :=
  ∃ l rem t,
    (hh redisMaxPointsFieldName).bind parseUint = some l ∧
    (hh redisActualPointsFieldName).bind parseUint = some rem ∧
    (hh redisResetTimeFieldName).bind parseUint = some t ∧
    rem ≤ l

/-- Every bucket hash in the store is well formed, i.e.
`0 ≤ remaining ≤ limit` holds of every stored bucket (the lower bound
is inherent to the unsigned representation). -/
def StoreInv (st : RedisState) : Prop :=
  ∀ k hh, st.hashes k = some hh → bucketWF hh

/-- States reachable from an empty backing store through `take` calls. -/
inductive Reachable (r : redisStore) : RedisState → Prop
  | empty : Reachable r RedisState.empty
  | take (st : RedisState) (now : Nat) (key : String) :
      Reachable r st → Reachable r (r.take st now key).2

/-- Within one window (the bucket readable at `now` before and after
the call), a `take` never increases the stored remaining count. -/
def MonotoneAt (r : redisStore) (st : RedisState) (now : Nat) (key : String) : Prop :=
  ∀ rem0 rem1, storedRemaining st now (r.keyPrefix ++ key) = some rem0 →
    storedRemaining (r.take st now key).2 now (r.keyPrefix ++ key) = some rem1 →
    rem1 ≤ rem0

/-- When no bucket is readable (first window, or the previous bucket
expired at its reset time), `take` creates the bucket back at the full
`limit`: the decision grants `remaining = maxPoints` and the stored
remaining count is `maxPoints` again. -/
def CreatesFullAt (r : redisStore) (st : RedisState) (now : Nat) (key : String) : Prop :=
  hmget st now (r.keyPrefix ++ key) redisMaxPointsFieldName = none →
    (r.take st now key).1.remaining = r.maxPoints ∧
    (r.take st now key).1.ok = true ∧
    ((r.take st now key).2.hashes (r.keyPrefix ++ key)).bind
      (fun hh => (hh redisActualPointsFieldName).bind parseUint) = some r.maxPoints

theorem live_eq_of_deadlines (st st' : RedisState) (now : Nat) (k : String)
    (h : st'.deadlines = st.deadlines) : live st' now k = live st now k := by
  unfold live
  rw [h]

/-- The hash written by `newBucket` at the bucket key. -/
theorem newBucket_hashes_key (r : redisStore) (st : RedisState) (now : Nat) (pk : String) :
    ∃ hh, (r.newBucket st now pk).2.hashes pk = some hh ∧
      hh redisMaxPointsFieldName = some (formatUint r.maxPoints) ∧
      hh redisActualPointsFieldName = some (formatUint r.maxPoints) ∧
      hh redisResetTimeFieldName = some (formatUint ((now + r.interval) % 2 ^ 64)) := by
  unfold redisStore.newBucket
  simp only
  rw [hset_hashes_key]
  refine ⟨_, rfl, ?_, ?_, ?_⟩ <;>
    · simp only [pairUp, List.foldl_cons, List.foldl_nil]
      simp [upd, redisMaxPointsFieldName, redisActualPointsFieldName, redisResetTimeFieldName]

theorem newBucket_hashes_other (r : redisStore) (st : RedisState) (now : Nat) (pk k : String)
    (h : k ≠ pk) : (r.newBucket st now pk).2.hashes k = st.hashes k := by
  unfold redisStore.newBucket
  simp only
  exact hset_hashes_other r st now pk k _ r.interval h

/-- `newBucket` leaves the key readable exactly when the interval is
positive; here we only need the raw hash lookups, so no liveness. -/
theorem newBucket_ret (r : redisStore) (st : RedisState) (now : Nat) (pk : String) :
    (r.newBucket st now pk).1 =
      ⟨r.maxPoints, r.maxPoints, (now + r.interval) % 2 ^ 64, true, none⟩ := rfl

/-- `update` of the single `actual_points` field rewrites exactly that
field of an existing hash. -/
theorem update_single_field (r : redisStore) (st : RedisState) (pk : String)
    (hh : String → Option String) (v : String)
    (hhash : st.hashes pk = some hh) :
    (r.update st pk [redisActualPointsFieldName, v]).hashes pk =
      some (upd hh redisActualPointsFieldName (some v)) := by
  rw [update_hashes_key, hhash]
  simp only [pairUp, List.foldl_cons, List.foldl_nil, Option.getD_some]

/-- Characterization of `take` on a live bucket with permits left. -/
theorem take_hit_pos (r : redisStore) (st : RedisState) (now : Nat) (key : String)
    (hh : String → Option String) (s0 s1 s2 : String) (l rem t : Nat)
    (hhash : st.hashes (r.keyPrefix ++ key) = some hh)
    (hlive : live st now (r.keyPrefix ++ key) = true)
    (h0 : hh redisMaxPointsFieldName = some s0) (hp0 : parseUint s0 = some l)
    (h1 : hh redisActualPointsFieldName = some s1) (hp1 : parseUint s1 = some rem)
    (h2 : hh redisResetTimeFieldName = some s2) (hp2 : parseUint s2 = some t)
    (hpos : 0 < rem) :
    r.take st now key =
      (⟨l, rem - 1, t, true, none⟩,
       r.update st (r.keyPrefix ++ key)
         [redisActualPointsFieldName, formatUint (rem - 1)]) := by
  have hg0 : hmget st now (r.keyPrefix ++ key) redisMaxPointsFieldName = some s0 := by
    unfold hmget; rw [hhash]; dsimp only; rw [if_pos hlive]; exact h0
  have hg1 : hmget st now (r.keyPrefix ++ key) redisActualPointsFieldName = some s1 := by
    unfold hmget; rw [hhash]; dsimp only; rw [if_pos hlive]; exact h1
  have hg2 : hmget st now (r.keyPrefix ++ key) redisResetTimeFieldName = some s2 := by
    unfold hmget; rw [hhash]; dsimp only; rw [if_pos hlive]; exact h2
  rw [take_eq_takeCore_of_read r st now key s0 s1 s2 hg0 hg1 hg2]
  unfold redisStore.takeCore
  simp only [hp0, hp1, hp2, Option.getD_some]
  rw [if_pos hpos]

/-- Characterization of `take` on a live exhausted bucket. -/
theorem take_hit_zero (r : redisStore) (st : RedisState) (now : Nat) (key : String)
    (hh : String → Option String) (s0 s1 s2 : String) (l t : Nat)
    (hhash : st.hashes (r.keyPrefix ++ key) = some hh)
    (hlive : live st now (r.keyPrefix ++ key) = true)
    (h0 : hh redisMaxPointsFieldName = some s0) (hp0 : parseUint s0 = some l)
    (h1 : hh redisActualPointsFieldName = some s1) (hp1 : parseUint s1 = some 0)
    (h2 : hh redisResetTimeFieldName = some s2) (hp2 : parseUint s2 = some t) :
    r.take st now key = (⟨l, 0, t, false, none⟩, st) := by
  have hg0 : hmget st now (r.keyPrefix ++ key) redisMaxPointsFieldName = some s0 := by
    unfold hmget; rw [hhash]; dsimp only; rw [if_pos hlive]; exact h0
  have hg1 : hmget st now (r.keyPrefix ++ key) redisActualPointsFieldName = some s1 := by
    unfold hmget; rw [hhash]; dsimp only; rw [if_pos hlive]; exact h1
  have hg2 : hmget st now (r.keyPrefix ++ key) redisResetTimeFieldName = some s2 := by
    unfold hmget; rw [hhash]; dsimp only; rw [if_pos hlive]; exact h2
  rw [take_eq_takeCore_of_read r st now key s0 s1 s2 hg0 hg1 hg2]
  unfold redisStore.takeCore
  simp only [hp0, hp1, hp2, Option.getD_some]
  rw [if_neg (by omega)]

/-- `take` when the `actual_points` field reads nil but `max_points`
does not: the failed type assertion, state unchanged. -/
theorem take_err_actual_nil (r : redisStore) (st : RedisState) (now : Nat) (key : String)
    (s0 : String)
    (h0 : hmget st now (r.keyPrefix ++ key) redisMaxPointsFieldName = some s0)
    (h1 : hmget st now (r.keyPrefix ++ key) redisActualPointsFieldName = none) :
    r.take st now key = (⟨0, 0, 0, false, some TakeErr.redisMismatchTypes⟩, st) := by
  simp only [redisStore.take, redisStore.readBucket]
  rw [h0, h1]
  cases hv2 : (hmget st now (r.keyPrefix ++ key) redisResetTimeFieldName).map RVal.str <;> rfl

/-- `take` when the `reset_time` field reads nil but the first two do
not: the failed type assertion, state unchanged. -/
theorem take_err_reset_nil (r : redisStore) (st : RedisState) (now : Nat) (key : String)
    (s0 s1 : String)
    (h0 : hmget st now (r.keyPrefix ++ key) redisMaxPointsFieldName = some s0)
    (h1 : hmget st now (r.keyPrefix ++ key) redisActualPointsFieldName = some s1)
    (h2 : hmget st now (r.keyPrefix ++ key) redisResetTimeFieldName = none) :
    r.take st now key = (⟨0, 0, 0, false, some TakeErr.redisMismatchTypes⟩, st) := by
  simp only [redisStore.take, redisStore.readBucket]
  rw [h0, h1, h2]
  rfl

/-- `take` preserves well-formedness of every stored bucket. -/
theorem inv_take (r : redisStore) (hmax : r.maxPoints < 2 ^ 64) (st : RedisState)
    (hinv : StoreInv st) (now : Nat) (key : String) :
    StoreInv (r.take st now key).2 := by
  cases hv0 : hmget st now (r.keyPrefix ++ key) redisMaxPointsFieldName with
  | none =>
    rw [take_eq_newBucket_of_miss r st now key hv0]
    obtain ⟨hh, hhash, hf0, hf1, hf2⟩ := newBucket_hashes_key r st now (r.keyPrefix ++ key)
    intro k hh' hk
    by_cases hkpk : k = r.keyPrefix ++ key
    · subst hkpk
      rw [hhash] at hk
      injection hk with hk
      subst hk
      refine ⟨r.maxPoints, r.maxPoints, (now + r.interval) % 2 ^ 64, ?_, ?_, ?_, le_refl _⟩
      · rw [hf0]
        exact parseUint_formatUint r.maxPoints hmax
      · rw [hf1]
        exact parseUint_formatUint r.maxPoints hmax
      · rw [hf2]
        exact parseUint_formatUint _ (Nat.mod_lt _ (by norm_num))
    · rw [newBucket_hashes_other r st now (r.keyPrefix ++ key) k hkpk] at hk
      exact hinv k hh' hk
  | some s0 =>
    obtain ⟨hh, hhash, hlive, hf0⟩ := hmget_eq_some st now (r.keyPrefix ++ key) _ s0 hv0
    obtain ⟨l, rem, t, hbl, hbr, hbt, hrl⟩ := hinv (r.keyPrefix ++ key) hh hhash
    rw [hf0] at hbl
    have hps0 : parseUint s0 = some l := hbl
    cases hf1 : hh redisActualPointsFieldName with
    | none =>
      rw [hf1] at hbr
      exact Option.noConfusion hbr
    | some s1 =>
      rw [hf1] at hbr
      have hps1 : parseUint s1 = some rem := hbr
      cases hf2 : hh redisResetTimeFieldName with
      | none =>
        rw [hf2] at hbt
        exact Option.noConfusion hbt
      | some s2 =>
        rw [hf2] at hbt
        have hps2 : parseUint s2 = some t := hbt
        by_cases hpos : 0 < rem
        · rw [take_hit_pos r st now key hh s0 s1 s2 l rem t hhash hlive hf0 hps0 hf1 hps1
            hf2 hps2 hpos]
          intro k hh' hk
          by_cases hkpk : k = r.keyPrefix ++ key
          · subst hkpk
            rw [update_single_field r st (r.keyPrefix ++ key) hh _ hhash] at hk
            injection hk with hk
            subst hk
            refine ⟨l, rem - 1, t, ?_, ?_, ?_, by omega⟩
            · rw [upd_other _ _ _ _ (by decide)]
              rw [hf0]
              exact hps0
            · rw [upd_self]
              have hlt : rem < 2 ^ 64 := parseUint_lt s1 rem hps1
              exact parseUint_formatUint (rem - 1) (by omega)
            · rw [upd_other _ _ _ _ (by decide)]
              rw [hf2]
              exact hps2
          · rw [update_hashes_other r st (r.keyPrefix ++ key) k _ hkpk] at hk
            exact hinv k hh' hk
        · have hz : rem = 0 := by omega
          subst hz
          rw [take_hit_zero r st now key hh s0 s1 s2 l t hhash hlive hf0 hps0 hf1 hps1
            hf2 hps2]
          exact hinv

/-- `take` never increases the remaining count readable in the current
window. -/
theorem mono_take (r : redisStore) (st : RedisState) (now : Nat) (key : String)
    (hinv : StoreInv st) : MonotoneAt r st now key := by
  intro rem0 rem1 h0 h1
  unfold storedRemaining at h0
  cases hg1 : hmget st now (r.keyPrefix ++ key) redisActualPointsFieldName with
  | none =>
    rw [hg1] at h0
    exact Option.noConfusion h0
  | some s1 =>
    rw [hg1] at h0
    have hps1 : parseUint s1 = some rem0 := h0
    obtain ⟨hh, hhash, hlive, hf1⟩ := hmget_eq_some st now (r.keyPrefix ++ key) _ s1 hg1
    obtain ⟨l, rem, t, hbl, hbr, hbt, hrl⟩ := hinv (r.keyPrefix ++ key) hh hhash
    rw [hf1] at hbr
    have hrr : rem = rem0 := by
      have := hbr.symm.trans hps1
      injection this
    subst hrr
    cases hf0 : hh redisMaxPointsFieldName with
    | none =>
      rw [hf0] at hbl
      exact Option.noConfusion hbl
    | some s0 =>
      rw [hf0] at hbl
      have hps0 : parseUint s0 = some l := hbl
      cases hf2 : hh redisResetTimeFieldName with
      | none =>
        rw [hf2] at hbt
        exact Option.noConfusion hbt
      | some s2 =>
        rw [hf2] at hbt
        have hps2 : parseUint s2 = some t := hbt
        by_cases hpos : 0 < rem
        · rw [take_hit_pos r st now key hh s0 s1 s2 l rem t hhash hlive hf0 hps0 hf1 hps1
            hf2 hps2 hpos] at h1
          have hlt : rem < 2 ^ 64 := parseUint_lt s1 rem hps1
          have hstored :
              storedRemaining
                (r.update st (r.keyPrefix ++ key)
                  [redisActualPointsFieldName, formatUint (rem - 1)]) now
                (r.keyPrefix ++ key) = some (rem - 1) := by
            unfold storedRemaining hmget
            rw [update_single_field r st (r.keyPrefix ++ key) hh _ hhash]
            dsimp only
            have hlive' :
                live (r.update st (r.keyPrefix ++ key)
                  [redisActualPointsFieldName, formatUint (rem - 1)]) now
                  (r.keyPrefix ++ key) = true := by
              rw [live_eq_of_deadlines st
                (r.update st (r.keyPrefix ++ key)
                  [redisActualPointsFieldName, formatUint (rem - 1)]) now
                (r.keyPrefix ++ key) rfl]
              exact hlive
            rw [if_pos hlive', upd_self]
            exact parseUint_formatUint (rem - 1) (by omega)
          rw [hstored] at h1
          injection h1 with h1
          omega
        · have hz : rem = 0 := by omega
          subst hz
          rw [take_hit_zero r st now key hh s0 s1 s2 l t hhash hlive hf0 hps0 hf1 hps1
            hf2 hps2] at h1
          have h1' : storedRemaining st now (r.keyPrefix ++ key) = some rem1 := h1
          unfold storedRemaining at h1'
          rw [hg1] at h1'
          have : parseUint s1 = some rem1 := h1'
          have := this.symm.trans hps1
          injection this with h
          omega

/-- A `take` on a missing (or expired) bucket grants and stores the
full permit count. -/
theorem creates_take (r : redisStore) (hmax : r.maxPoints < 2 ^ 64) (st : RedisState)
    (now : Nat) (key : String) : CreatesFullAt r st now key := by
  intro hmiss
  rw [take_eq_newBucket_of_miss r st now key hmiss]
  obtain ⟨hh, hhash, hf0, hf1, hf2⟩ := newBucket_hashes_key r st now (r.keyPrefix ++ key)
  refine ⟨rfl, rfl, ?_⟩
  rw [hhash]
  show (hh redisActualPointsFieldName).bind parseUint = some r.maxPoints
  rw [hf1]
  exact parseUint_formatUint r.maxPoints hmax

/-- Every state reachable through `take` calls keeps all buckets well
formed. -/
theorem reachable_inv (r : redisStore) (hmax : r.maxPoints < 2 ^ 64) :
    ∀ st, Reachable r st → StoreInv st := by
  intro st h
  induction h with
  | empty => intro k hh hk; exact Option.noConfusion hk
  | take st now key _ ih => exact inv_take r hmax st ih now key

/-- **C7.** On every store state reachable through `Take` calls (for a
store whose configured points fit in 64 bits): after any further `take`
every stored bucket satisfies `0 ≤ remaining ≤ limit`; the remaining
count readable within the current window never increases across a
`take`; and it returns to the full `limit` exactly through the creation
of a fresh bucket once the previous one is gone (absent or past its
expiry/reset deadline at read time). -/
theorem take_bucket_invariants (r : redisStore) (hmax : r.maxPoints < 2 ^ 64)
    (st : RedisState) (hr : Reachable r st) (now : Nat) (key : String) :
    StoreInv (r.take st now key).2 ∧ MonotoneAt r st now key ∧ CreatesFullAt r st now key := by
  have hinv : StoreInv st := reachable_inv r hmax st hr
  exact ⟨inv_take r hmax st hinv now key, mono_take r st now key hinv,
    creates_take r hmax st now key⟩

/-- Witness for C7 at a concrete store and the empty reachable state. -/
theorem take_bucket_invariants_witness :
    StoreInv ((redisStore.take ⟨["tags:goratelimit"], "tags:", "p_", 5, 100⟩)
        RedisState.empty 0 "k").2 ∧
    MonotoneAt ⟨["tags:goratelimit"], "tags:", "p_", 5, 100⟩ RedisState.empty 0 "k" ∧
    CreatesFullAt ⟨["tags:goratelimit"], "tags:", "p_", 5, 100⟩ RedisState.empty 0 "k" :=
  take_bucket_invariants ⟨["tags:goratelimit"], "tags:", "p_", 5, 100⟩ (by decide)
    RedisState.empty Reachable.empty 0 "k"

end GoRatelimiter
